import Mathlib

/-!
Verification of the client-side recommendation-explanation and
note-normalization core of the perfume web application.

The embedding models JavaScript strings as lists of Unicode code points
(`List Nat`), so that the case conversions and whitespace handling of the
source become explicit arithmetic on code points.  JavaScript numbers are
modelled as exact rationals; `undefined` and `NaN` are modelled by `Option`
(`none` standing for the absent value, respectively for NaN, which is how
the two propagate through the arithmetic and comparisons that the source
performs on them).
-/

namespace PerfumeCore

/-- Code points of a Lean string literal, used to write concrete inputs. -/
def cp (s : String) : List Nat := s.data.map Char.toNat

/-- Whitespace test matching the regexp class \s of the source on the ASCII
range (space, tab, line feed, carriage return, vertical tab, form feed). -/
def isWsC (c : Nat) : Bool :=
  decide (c = 32 ∨ c = 9 ∨ c = 10 ∨ c = 13 ∨ c = 11 ∨ c = 12)

/-- Model of String.prototype.toLowerCase on one code point (ASCII letters). -/
def lowerC (c : Nat) : Nat := if 65 ≤ c ∧ c ≤ 90 then c + 32 else c

/-- Model of String.prototype.toUpperCase on one code point (ASCII letters). -/
def upperC (c : Nat) : Nat := if 97 ≤ c ∧ c ≤ 122 then c - 32 else c

/-- Model of String.prototype.toLowerCase. -/
def toLowerCase (s : List Nat) : List Nat := s.map lowerC

/-- Model of String.prototype.trim: drop whitespace from both ends. -/
def trim (s : List Nat) : List Nat :=
  ((s.dropWhile isWsC).reverse.dropWhile isWsC).reverse

/-- Model of String.prototype.split with separator "," (code point 44):
`"".split(",")` is `[""]`, and every comma starts a new segment. -/
def splitComma : List Nat → List (List Nat)
  | [] => [[]]
  | c :: rest =>
    if c = 44 then [] :: splitComma rest
    else
      match splitComma rest with
      | [] => [[c]]
      | seg :: segs => (c :: seg) :: segs

/-- Worker for `splitWs`: `acc` holds the reversed current word. -/
def splitWsGo (acc : List Nat) : List Nat → List (List Nat)
  | [] => if acc = [] then [] else [acc.reverse]
  | c :: rest =>
    if isWsC c then
      if acc = [] then splitWsGo [] rest
      else acc.reverse :: splitWsGo [] rest
    else splitWsGo (c :: acc) rest

/-- Model of String.prototype.split on the regexp \s+ for trimmed inputs:
the list of maximal whitespace-free runs. -/
def splitWs (s : List Nat) : List (List Nat) := splitWsGo [] s

/-- Model of Array.prototype.join(" "). -/
def joinSpace : List (List Nat) → List Nat
  | [] => []
  | [w] => w
  | w :: v :: ws => w ++ 32 :: joinSpace (v :: ws)

/-- Model of `word.charAt(0).toUpperCase() + word.slice(1)`. -/
def capitalizeWord : List Nat → List Nat
  | [] => []
  | c :: rest => upperC c :: rest

/-- The CAPITALIZATION_RULES table of note-formatter: special capitalization
rules for note names, keyed by the lower-cased trimmed text. -/
def CAPITALIZATION_RULES : List (List Nat × List Nat) :=
  [(cp "ylang-ylang", cp "Ylang-Ylang"),
   (cp "iso e super", cp "Iso E Super"),
   (cp "hedione hc", cp "Hedione HC"),
   (cp "ambroxan", cp "Ambroxan"),
   (cp "cashmeran", cp "Cashmeran"),
   (cp "tonka bean", cp "Tonka Bean"),
   (cp "oud", cp "Oud"),
   (cp "patchouli", cp "Patchouli")]

/-- Lookup in an association table (model of the record-field access
`CAPITALIZATION_RULES[normalized]`). -/
def lookupRule : List (List Nat × List Nat) → List Nat → Option (List Nat)
  | [], _ => none
  | (k, v) :: rest, key => if key = k then some v else lookupRule rest key

/-- The normalization `note.toLowerCase().trim()` used by note-formatter both
as the rules key in `formatNote` and as the deduplication key in
`formatNotes`. -/
def jsNorm (note : List Nat) : List Nat := trim (toLowerCase note)

/-- Model of `formatNote` of note-formatter: empty input gives the empty
string; otherwise look the lower-cased trimmed text up in the
capitalization rules, and fall back to capitalizing the first letter of
each whitespace-separated word. -/
def formatNote (note : List Nat) : List Nat :=
  if note = [] then []
  else
    match lookupRule CAPITALIZATION_RULES (jsNorm note) with
    | some v => v
    | none => joinSpace ((splitWs (jsNorm note)).map capitalizeWord)

/-- Worker for `formatNotes`: `seen` is the set of normalized keys already
emitted (the JS Set, modelled as a list). -/
def formatNotesGo (seen : List (List Nat)) : List (List Nat) → List (List Nat)
  | [] => []
  | n :: rest =>
    if jsNorm n ≠ [] ∧ jsNorm n ∉ seen then
      formatNote n :: formatNotesGo (jsNorm n :: seen) rest
    else formatNotesGo seen rest

/-- Model of `formatNotes` of note-formatter: format each note, keeping only
the first occurrence of each nonempty lower-cased trimmed key. -/
def formatNotes (notes : List (List Nat)) : List (List Nat) :=
  formatNotesGo [] notes

/-- The duck-typed input of the note parser `parseNotes` of the API layer:
null or undefined, a comma-joined string, or an array of raw strings. -/
inductive NoteField where
  | nullv : NoteField
  | str : List Nat → NoteField
  | arr : List (List Nat) → NoteField
deriving DecidableEq

/-- Model of the helper `parseNotes` of the API transformation layer (the
operation the specification calls parseNoteField): arrays are passed to
`formatNotes` directly; falsy inputs (null, undefined, the empty string)
give an empty list; other strings are split on commas only, each segment
trimmed, empty segments dropped, and the result formatted. -/
def parseNoteField : NoteField → List (List Nat)
  | .arr notes => formatNotes notes
  | .nullv => []
  | .str s =>
    if s = [] then []
    else formatNotes (((splitComma s).map trim).filter (· ≠ []))

/-- The raw note texts that a given input feeds into `formatNotes`. -/
def rawNotes : NoteField → List (List Nat)
  | .arr notes => notes
  | .nullv => []
  | .str s =>
    if s = [] then []
    else ((splitComma s).map trim).filter (· ≠ [])

/-- The normalized form in the words of the specification: lower-cased,
trimmed, with internal runs of whitespace collapsed to single spaces. -/
def collapseNorm (s : List Nat) : List Nat := joinSpace (splitWs (toLowerCase s))

/-! ## The recommendation engine -/

/-- The tag set of RecommendationReason.type. -/
inductive ReasonType where
  | similar_notes
  | same_brand
  | similar_family
  | popular_choice
  | complementary
deriving DecidableEq

/-- Model of the RecommendationReason record.  JavaScript numbers are exact
rationals here; `confidence = none` models NaN, which the source produces
when `Math.min` meets the result of dividing `undefined` by 3. -/
structure Reason where
  rtype : ReasonType
  confidence : Option ℚ
  details : List Nat
  matchingElements : List (List Nat)
deriving DecidableEq

/-- Model of the structured notes object of a Perfume record. -/
structure PerfumeNotes where
  top : Option (List (List Nat))
  middle : Option (List (List Nat))
  base : Option (List (List Nat))
deriving DecidableEq

/-- The part of a Perfume record that the recommendation engine reads.
Every field is optional because the runtime values come from a lenient
transformation of backend payloads and can be absent. -/
structure Perfume where
  brand : Option (List Nat)
  notes : Option PerfumeNotes
  top_notes : Option (List Nat)
  middle_notes : Option (List Nat)
  base_notes : Option (List Nat)
deriving DecidableEq

/-- Model of the recommendation payload read by
`generateRecommendationReasonFromData`: the perfume record and the three
similarity signals, each possibly absent.  Profile values carry an `Option`
because the source guards them with a typeof check, treating non-numbers
as 0. -/
structure RecData where
  perfume : Option Perfume
  similarityScore : Option ℚ
  sharedNotes : Option ℚ
  olfactiveProfile : Option (List (List Nat × Option ℚ))
deriving DecidableEq

/-- JavaScript `a > b` where `a` may be undefined: comparisons with
undefined (or NaN) are false. -/
def jsGt (a : Option ℚ) (b : ℚ) : Bool :=
  match a with
  | some x => decide (b < x)
  | none => false

/-- JavaScript `a / b` where `a` may be undefined: `undefined / b` is NaN,
modelled by `none`. -/
def jsDiv (a : Option ℚ) (b : ℚ) : Option ℚ := a.map (fun x => x / b)

/-- Model of `Math.min` on two numbers. -/
def mathMin (a b : ℚ) : ℚ := if a ≤ b then a else b

/-- Model of `Math.max` on two numbers. -/
def mathMax (a b : ℚ) : ℚ := if a ≤ b then b else a

/-- JavaScript `Math.min(a, x)` where `x` may be NaN: `Math.min` with a NaN
argument returns NaN. -/
def jsMin (a : ℚ) (x : Option ℚ) : Option ℚ := x.map (fun y => mathMin a y)

/-- Digits of a number, standing in for the JavaScript number-to-string
conversion used inside template literals.  No claim depends on the exact
rendered text, only on it being a function of the number. -/
def numStr (q : ℚ) : List Nat := cp (toString q)

/-- Rendering of a natural number inside template literals. -/
def natStr (n : ℕ) : List Nat := cp (toString n)

/-- Rendering of a possibly-undefined number inside template literals. -/
def optNumStr (o : Option ℚ) : List Nat :=
  match o with
  | some q => numStr q
  | none => cp "undefined"

/-- Model of Number.prototype.toFixed(1): round to one decimal place and
render.  The exact digits are immaterial to every claim. -/
def jsToFixed1 (q : ℚ) : List Nat := numStr ((⌊q * 10 + 1 / 2⌋ : ℤ) / (10 : ℚ))

/-- The reduce of Object.entries(olfactiveProfile) that finds the dominant
olfactive family: fold in entry order from the accumulator
`{ family: "", score: 0 }`, replacing it whenever a strictly larger numeric
score appears; a falsy profile gives the initial accumulator unchanged. -/
def dominantFamily (prof : Option (List (List Nat × Option ℚ))) : List Nat × ℚ :=
  match prof with
  | some entries =>
    entries.foldl
      (fun mx e =>
        let numScore := e.2.getD 0
        if mx.2 < numScore then (e.1, numScore) else mx)
      ([], 0)
  | none => ([], 0)

/-- Model of `RecommendationEngine.generateRecommendationReasonFromData`:
ordered rule evaluation over the extracted signals.  The local perfume
binding of the source (`data.perfume || data`) is dead code and therefore
not modelled as part of the result. -/
def generateRecommendationReasonFromData (data : RecData) (index : ℕ) : Reason :=
  let dominant := dominantFamily data.olfactiveProfile
  if jsGt data.sharedNotes 6 then
    { rtype := .similar_notes
      confidence := jsMin (19/20) (jsDiv data.similarityScore 3)
      details := cp "🎯 Shares " ++ optNumStr data.sharedNotes ++
        cp " fragrance notes with incredible similarity"
      matchingElements := [optNumStr data.sharedNotes ++ cp " shared notes"] }
  else if (4 : ℚ) < dominant.2 then
    { rtype := .similar_family
      confidence := jsMin (9/10) (jsDiv data.similarityScore 3)
      details := cp "✨ Similar " ++ toLowerCase dominant.1 ++ cp " profile with " ++
        numStr dominant.2 ++ cp " matching elements"
      matchingElements := [dominant.1] }
  else if jsGt data.similarityScore (5/2) then
    { rtype := .complementary
      confidence := jsMin (17/20) (jsDiv data.similarityScore 3)
      details := cp "🤝 High compatibility score of " ++
        (data.similarityScore.map jsToFixed1).getD [] ++ cp " - perfect match!"
      matchingElements := [(data.similarityScore.map jsToFixed1).getD [] ++ cp " similarity"] }
  else
    { rtype := .popular_choice
      confidence := some (mathMax (3/5) (4/5 - (index : ℚ) * (1/10)))
      details := cp "💎 Curated recommendation based on advanced fragrance analysis"
      matchingElements := [] }

/-! ## The legacy pairwise explainer -/

/-- Model of splitting one of the raw comma-joined note strings inside
`extractAllNotes`: a falsy field (absent or empty string) contributes
nothing, otherwise split on commas and trim each segment. -/
def splitNoteString (o : Option (List Nat)) : List (List Nat) :=
  match o with
  | some s => if s = [] then [] else (splitComma s).map trim
  | none => []

/-- Model of `RecommendationEngine.extractAllNotes`: structured notes first
(top, middle, base), then the three raw comma-joined fields, keeping only
nonempty note texts. -/
def extractAllNotes (p : Perfume) : List (List Nat) :=
  ((match p.notes with
    | some ns => ns.top.getD [] ++ ns.middle.getD [] ++ ns.base.getD []
    | none => []) ++
   splitNoteString p.top_notes ++ splitNoteString p.middle_notes ++
   splitNoteString p.base_notes).filter (fun note => 0 < note.length)

/-- Worker collapsing every whitespace run to one space, the model of
`replace(/\s+/g, " ")`; the flag records whether the previous character
was whitespace. -/
def collapseGo : Bool → List Nat → List Nat
  | _, [] => []
  | prevWs, c :: rest =>
    if isWsC c then
      if prevWs then collapseGo true rest
      else 32 :: collapseGo true rest
    else c :: collapseGo false rest

/-- Model of `replace(/\s+/g, " ")`. -/
def collapseWs (s : List Nat) : List Nat := collapseGo false s

/-- Model of `startsWith`: the second list is a leading segment of the
first. -/
def startsWith : List Nat → List Nat → Bool
  | _, [] => true
  | [], _ :: _ => false
  | c :: s, d :: p => c == d && startsWith s p

/-- The first list ends with the second. -/
def endsWith (s pat : List Nat) : Bool := startsWith s.reverse pat.reverse

/-- Model of String.prototype.includes. -/
def containsSeq (pat : List Nat) : List Nat → Bool
  | [] => pat.isEmpty
  | c :: rest => startsWith (c :: rest) pat || containsSeq pat rest

/-- The color words whose prefix occurrence the note normalization of the
legacy engine removes. -/
def COLOR_WORDS : List (List Nat) :=
  [cp "white", cp "black", cp "pink", cp "red", cp "blue", cp "green", cp "yellow"]

/-- The trailing words the note normalization of the legacy engine
removes. -/
def TRAILING_WORDS : List (List Nat) :=
  [cp "oil", cp "extract", cp "absolute"]

/-- Model of `replace(/^(white|black|pink|red|blue|green|yellow)\s+/, "")`
applied to a collapsed, trimmed string, where every whitespace run is a
single space: drop a leading color word followed by its space. -/
def stripColorWord (s : List Nat) : List Nat :=
  match COLOR_WORDS.find? (fun p => startsWith s (p ++ [32])) with
  | some p => s.drop (p.length + 1)
  | none => s

/-- Model of `replace(/\s+(oil|extract|absolute)$/, "")` applied to a
collapsed, trimmed string: drop a trailing space-plus-word occurrence. -/
def stripTrailingWord (s : List Nat) : List Nat :=
  match TRAILING_WORDS.find? (fun q => endsWith s (32 :: q)) with
  | some q => s.take (s.length - (q.length + 1))
  | none => s

/-- Model of `RecommendationEngine.normalizeNote`: lower-case, collapse
whitespace runs, trim, strip a color prefix word and a trailing
oil/extract/absolute word. -/
def normalizeNote (note : List Nat) : List Nat :=
  stripTrailingWord (stripColorWord (trim (collapseWs (toLowerCase note))))

/-- The notes of the source perfume whose normalized form also occurs,
normalized, among the notes of the recommended perfume (the `commonNotes`
filter of the source, counting source occurrences with multiplicity). -/
def commonNotes (source rec : Perfume) : List (List Nat) :=
  (extractAllNotes source).filter (fun note =>
    (extractAllNotes rec).any (fun rNote => normalizeNote note == normalizeNote rNote))

/-- The fixed complementary-family table of the legacy engine. -/
def COMPLEMENTARY_PAIRS : List (List Nat × List Nat) :=
  [(cp "citrus", cp "woody"), (cp "floral", cp "spicy"), (cp "fresh", cp "warm"),
   (cp "light", cp "deep"), (cp "sweet", cp "dry"), (cp "aquatic", cp "oriental")]

/-- Model of `RecommendationEngine.areComplementaryProfiles`: some pair of
the table has its first family word contained in a note of the first
perfume and its second family word contained in a note of the second. -/
def areComplementaryProfiles (p1 p2 : Perfume) : Bool :=
  COMPLEMENTARY_PAIRS.any (fun fp =>
    (extractAllNotes p1).any (fun note => containsSeq fp.1 (toLowerCase note)) &&
    (extractAllNotes p2).any (fun note => containsSeq fp.2 (toLowerCase note)))

/-- The error a JavaScript evaluation can raise; dereferencing a property
of undefined raises a TypeError. -/
inductive JsError where
  | typeError
deriving DecidableEq

/-- The candidate reasons the legacy explainer pushes, given the two brand
strings (already known to be present): same brand, then similar notes,
then complementary profiles, then the popular-choice fallback when nothing
matched. -/
def legacyReasons (source rec : Perfume) (b1 b2 : List Nat) (index : ℕ) : List Reason :=
  let brandReasons : List Reason :=
    if toLowerCase b1 = toLowerCase b2 then
      [{ rtype := .same_brand
         confidence := some (17/20)
         details := cp "Both perfumes are from " ++ b1 ++
           cp ", known for their consistent quality and style."
         matchingElements := [b1] }]
    else []
  let common := commonNotes source rec
  let noteReasons : List Reason :=
    if 0 < common.length then
      [{ rtype := .similar_notes
         confidence := some (mathMin (19/20) (3/5 + (common.length : ℚ) * (1/10)))
         details := cp "Shares " ++ natStr common.length ++ cp " key fragrance note" ++
           (if 1 < common.length then cp "s" else []) ++ cp ": " ++
           List.intercalate (cp ", ") (common.take 3) ++ cp "."
         matchingElements := common }]
    else []
  let compReasons : List Reason :=
    if areComplementaryProfiles source rec then
      [{ rtype := .complementary
         confidence := some (3/4)
         details := cp "This fragrance complements your choice with contrasting yet harmonious notes."
         matchingElements := [] }]
    else []
  let reasons := brandReasons ++ noteReasons ++ compReasons
  if reasons = [] then
    [{ rtype := .popular_choice
       confidence := some (mathMax (1/2) (4/5 - (index : ℚ) * (1/10)))
       details := cp "Highly rated fragrance that perfume enthusiasts often enjoy alongside similar scents."
       matchingElements := [] }]
  else reasons

/-- The comparison `current.confidence > best.confidence` of the final
reduce; comparisons involving NaN are false. -/
def jsConfGt (a b : Option ℚ) : Bool :=
  match a, b with
  | some x, some y => decide (y < x)
  | _, _ => false

/-- The final `reasons.reduce` of the legacy explainer: keep the reason of
strictly highest confidence, earlier reasons winning ties.  The nil case is
unreachable because the fallback guarantees a nonempty list. -/
def bestReason : List Reason → Reason
  | [] => { rtype := .popular_choice, confidence := none, details := [], matchingElements := [] }
  | r :: rs =>
    rs.foldl (fun best current =>
      if jsConfGt current.confidence best.confidence then current else best) r

/-- Model of `RecommendationEngine.generateRecommendationReason`.  The
source dereferences `brand.toLowerCase()` on both records before anything
else, so an absent brand on either side raises a TypeError; otherwise the
candidate reasons are built and the best one returned. -/
def generateRecommendationReason (source rec : Perfume) (index : ℕ) :
    Except JsError Reason :=
  match source.brand, rec.brand with
  | some b1, some b2 => .ok (bestReason (legacyReasons source rec b1 b2 index))
  | _, _ => .error .typeError

/-- The confidence of a legacy result, when it did not raise. -/
def confOf : Except JsError Reason → Option ℚ
  | .ok r => r.confidence
  | .error _ => none

/-- The cardinality of the set intersection of the two normalized note
vocabularies, following the words of the specification (claim C7): distinct
normalized source notes that occur among the normalized recommended
notes. -/
def specNoteIntersectionCard (source rec : Perfume) : ℕ :=
  (((extractAllNotes source).map normalizeNote).filter
    (fun n => n ∈ (extractAllNotes rec).map normalizeNote)).dedup.length

/-! ## Auxiliary definitions used to analyse the normalizer -/

/-- The raw notes `formatNotes` keeps: the first occurrence of each
nonempty lower-cased trimmed key, before formatting.  `formatNotes` is the
image of this selection under `formatNote`. -/
def dedupRawGo (seen : List (List Nat)) : List (List Nat) → List (List Nat)
  | [] => []
  | n :: rest =>
    if jsNorm n ≠ [] ∧ jsNorm n ∉ seen then
      n :: dedupRawGo (jsNorm n :: seen) rest
    else dedupRawGo seen rest

/-- The raw-note selection of `formatNotes` starting from no seen keys. -/
def dedupRaw (notes : List (List Nat)) : List (List Nat) := dedupRawGo [] notes

/-! ## Concrete inputs used in witnesses and counterexamples -/

/-- Payload of the rule-precedence test of the specification: 8 shared
notes, similarity 1.0 and a dominant WOODY family of score 10. -/
def dataC1 : RecData := ⟨none, some 1, some 8, some [(cp "WOODY", some 10)]⟩

/-- Payload with more than 6 shared notes but no similarity score. -/
def dataNoScore : RecData := ⟨none, none, some 8, none⟩

/-- A perfume payload carried inside a recommendation item. -/
def perfPayloadA : Perfume := ⟨some (cp "Chanel"), none, some (cp "rose"), none, none⟩

/-- Payload equal to `dataC10b` on every signal but carrying a perfume. -/
def dataC10a : RecData := ⟨some perfPayloadA, some 1, some 8, none⟩

/-- Payload equal to `dataC10a` on every signal but with no perfume. -/
def dataC10b : RecData := ⟨none, some 1, some 8, none⟩

/-- Comma-joined input whose two notes differ only in an internal
whitespace run. -/
def noteInputC2 : NoteField := .str (cp "a  b, a b")

/-- Array input whose two notes differ only in an internal whitespace
run. -/
def noteInputC5 : NoteField := .arr [cp "a  b", cp "a b"]

/-- Array input whose notes are already internally single-spaced. -/
def noteInputC5w : NoteField := .arr [cp "Pink Pepper", cp "rose"]

/-- Source perfume of the legacy-ranking witness: same brand as
`perfSameBrandB` up to case, sharing exactly the two notes rose and
jasmine. -/
def perfSameBrandA : Perfume := ⟨some (cp "Dior"), none, some (cp "rose, jasmine"), none, none⟩

/-- Recommended perfume of the legacy-ranking witness. -/
def perfSameBrandB : Perfume := ⟨some (cp "dior"), none, some (cp "rose, jasmine"), none, none⟩

/-- A perfume record with no brand field. -/
def perfNoBrand : Perfume := ⟨none, none, some (cp "rose"), none, none⟩

/-- Source perfume whose note list mentions rose twice. -/
def perfDoubleRose : Perfume := ⟨some (cp "A"), none, some (cp "rose, rose"), none, none⟩

/-- Recommended perfume with the single note rose. -/
def perfSingleRose : Perfume := ⟨some (cp "B"), none, some (cp "rose"), none, none⟩

/-! ## Helper lemmas -/

theorem lowerC_lowerC (c : Nat) : lowerC (lowerC c) = lowerC c := by
  unfold lowerC
  split_ifs <;> omega

theorem lowerC_upperC (c : Nat) : lowerC (upperC c) = lowerC c := by
  unfold upperC lowerC
  split_ifs <;> omega

theorem toLowerCase_append (s t : List Nat) :
    toLowerCase (s ++ t) = toLowerCase s ++ toLowerCase t := List.map_append _ _ _

theorem toLowerCase_cons (c : Nat) (s : List Nat) :
    toLowerCase (c :: s) = lowerC c :: toLowerCase s := rfl

theorem toLowerCase_joinSpace :
    ∀ vs : List (List Nat), toLowerCase (joinSpace vs) = joinSpace (vs.map toLowerCase)
  | [] => rfl
  | [_] => rfl
  | w :: v :: vs' => by
    show toLowerCase (w ++ 32 :: joinSpace (v :: vs')) =
      joinSpace (toLowerCase w :: toLowerCase v :: vs'.map toLowerCase)
    rw [toLowerCase_append, toLowerCase_cons, toLowerCase_joinSpace (v :: vs')]
    rfl

theorem toLowerCase_capitalizeWord (w : List Nat) :
    toLowerCase (capitalizeWord w) = toLowerCase w := by
  cases w with
  | nil => rfl
  | cons c rest =>
    simp only [capitalizeWord, toLowerCase, List.map_cons, lowerC_upperC]

theorem toLowerCase_fixed : ∀ s : List Nat, (∀ c ∈ s, lowerC c = c) → toLowerCase s = s
  | [], _ => rfl
  | c :: s, h => by
    rw [toLowerCase_cons, h c (List.mem_cons_self _ _),
      toLowerCase_fixed s (fun d hd => h d (List.mem_cons_of_mem _ hd))]

theorem mem_toLowerCase_fixed (s : List Nat) (c : Nat) (h : c ∈ toLowerCase s) :
    lowerC c = c := by
  rcases List.mem_map.mp h with ⟨a, _, rfl⟩
  exact lowerC_lowerC a

theorem splitWsGo_nil (acc : List Nat) :
    splitWsGo acc [] = if acc = [] then [] else [acc.reverse] := rfl

theorem splitWsGo_cons (acc : List Nat) (c : Nat) (rest : List Nat) :
    splitWsGo acc (c :: rest) =
      if isWsC c = true then
        if acc = [] then splitWsGo [] rest else acc.reverse :: splitWsGo [] rest
      else splitWsGo (c :: acc) rest := rfl

theorem splitWsGo_words : ∀ (l acc : List Nat), (∀ c ∈ acc, isWsC c = false) →
    ∀ w ∈ splitWsGo acc l, w ≠ [] ∧ ∀ c ∈ w, isWsC c = false := by
  intro l
  induction l with
  | nil =>
    intro acc hacc w hw
    rw [splitWsGo_nil] at hw
    by_cases h : acc = []
    · simp [h] at hw
    · rw [if_neg h] at hw
      rcases List.mem_singleton.mp hw with rfl
      refine ⟨by simpa using h, ?_⟩
      intro c hc
      exact hacc c (List.mem_reverse.mp hc)
  | cons c rest ih =>
    intro acc hacc w hw
    rw [splitWsGo_cons] at hw
    by_cases hws : isWsC c = true
    · rw [if_pos hws] at hw
      by_cases h : acc = []
      · rw [if_pos h] at hw
        exact ih [] (by simp) w hw
      · rw [if_neg h] at hw
        rcases List.mem_cons.mp hw with h1 | h1
        · subst h1
          refine ⟨by simpa using h, ?_⟩
          intro d hd
          exact hacc d (List.mem_reverse.mp hd)
        · exact ih [] (by simp) w h1
    · rw [if_neg hws] at hw
      refine ih (c :: acc) ?_ w hw
      intro d hd
      rcases List.mem_cons.mp hd with rfl | h1
      · simpa using hws
      · exact hacc d h1

theorem splitWsGo_chars : ∀ (l acc : List Nat) (w : List Nat) (c : Nat),
    w ∈ splitWsGo acc l → c ∈ w → c ∈ l ∨ c ∈ acc := by
  intro l
  induction l with
  | nil =>
    intro acc w c hw hc
    rw [splitWsGo_nil] at hw
    by_cases h : acc = []
    · simp [h] at hw
    · rw [if_neg h] at hw
      rcases List.mem_singleton.mp hw with rfl
      exact Or.inr (List.mem_reverse.mp hc)
  | cons d rest ih =>
    intro acc w c hw hc
    rw [splitWsGo_cons] at hw
    by_cases hws : isWsC d = true
    · rw [if_pos hws] at hw
      by_cases h : acc = []
      · rw [if_pos h] at hw
        rcases ih [] w c hw hc with h1 | h1
        · exact Or.inl (List.mem_cons_of_mem _ h1)
        · simp at h1
      · rw [if_neg h] at hw
        rcases List.mem_cons.mp hw with rfl | h1
        · exact Or.inr (List.mem_reverse.mp hc)
        · rcases ih [] w c h1 hc with h2 | h2
          · exact Or.inl (List.mem_cons_of_mem _ h2)
          · simp at h2
    · rw [if_neg hws] at hw
      rcases ih (d :: acc) w c hw hc with h1 | h1
      · exact Or.inl (List.mem_cons_of_mem _ h1)
      · rcases List.mem_cons.mp h1 with rfl | h2
        · exact Or.inl (List.mem_cons_self _ _)
        · exact Or.inr h2

theorem splitWsGo_append : ∀ (w acc l : List Nat), (∀ c ∈ w, isWsC c = false) →
    splitWsGo acc (w ++ l) = splitWsGo (w.reverse ++ acc) l := by
  intro w
  induction w with
  | nil => intro acc l _; simp
  | cons c w' ih =>
    intro acc l hw
    have hc : isWsC c = false := hw c (List.mem_cons_self _ _)
    rw [List.cons_append, splitWsGo_cons, if_neg (by simp [hc]),
      ih (c :: acc) l (fun d hd => hw d (List.mem_cons_of_mem _ hd))]
    congr 1
    simp

theorem joinSpace_ne_nil (w : List Nat) (vs : List (List Nat)) (hw : w ≠ []) :
    joinSpace (w :: vs) ≠ [] := by
  cases vs with
  | nil => simpa [joinSpace] using hw
  | cons v vs' => simp [joinSpace]

theorem splitWs_joinSpace : ∀ (vs : List (List Nat)),
    (∀ w ∈ vs, w ≠ [] ∧ ∀ c ∈ w, isWsC c = false) →
    splitWs (joinSpace vs) = vs := by
  intro vs
  induction vs with
  | nil => intro _; rfl
  | cons w vs ih =>
    intro h
    have hw := h w (List.mem_cons_self _ _)
    cases vs with
    | nil =>
      show splitWsGo [] (joinSpace [w]) = [w]
      have e : joinSpace [w] = w ++ [] := by simp [joinSpace]
      rw [e, splitWsGo_append w [] [] hw.2, splitWsGo_nil]
      rw [if_neg (by simpa using hw.1)]
      simp
    | cons v vs' =>
      show splitWsGo [] (joinSpace (w :: v :: vs')) = w :: v :: vs'
      have e : joinSpace (w :: v :: vs') = w ++ 32 :: joinSpace (v :: vs') := rfl
      rw [e, splitWsGo_append w [] _ hw.2, splitWsGo_cons]
      rw [if_pos (by decide)]
      rw [if_neg (by simpa using hw.1)]
      simp only [List.append_nil, List.reverse_reverse]
      have e2 := ih (fun u hu => h u (List.mem_cons_of_mem _ hu))
      simp only [splitWs] at e2
      rw [e2]

theorem joinSpace_reverse_head : ∀ (vs : List (List Nat)),
    (∀ w ∈ vs, w ≠ [] ∧ ∀ c ∈ w, isWsC c = false) → vs ≠ [] →
    ∃ c t, (joinSpace vs).reverse = c :: t ∧ isWsC c = false := by
  intro vs
  induction vs with
  | nil => intro _ h; exact absurd rfl h
  | cons w vs ih =>
    intro h _
    have hw := h w (List.mem_cons_self _ _)
    cases vs with
    | nil =>
      rcases List.exists_cons_of_ne_nil (fun he : w.reverse = [] =>
        hw.1 (by simpa using he)) with ⟨c, t, hct⟩
      refine ⟨c, t, by simpa [joinSpace] using hct, ?_⟩
      have hcw : c ∈ w.reverse := by rw [hct]; exact List.mem_cons_self _ _
      exact hw.2 c (List.mem_reverse.mp hcw)
    | cons v vs' =>
      rcases ih (fun u hu => h u (List.mem_cons_of_mem _ hu)) (by simp)
        with ⟨c, t, hct, hc⟩
      refine ⟨c, t ++ 32 :: w.reverse, ?_, hc⟩
      have e : joinSpace (w :: v :: vs') = w ++ 32 :: joinSpace (v :: vs') := rfl
      rw [e]
      simp only [List.reverse_append, List.reverse_cons]
      rw [hct]
      simp

theorem trim_joinSpace (vs : List (List Nat))
    (h : ∀ w ∈ vs, w ≠ [] ∧ ∀ c ∈ w, isWsC c = false) :
    trim (joinSpace vs) = joinSpace vs := by
  cases vs with
  | nil => rfl
  | cons w vs' =>
    have hw := h w (List.mem_cons_self _ _)
    rcases List.exists_cons_of_ne_nil hw.1 with ⟨c, w', rfl⟩
    have hc : isWsC c = false := hw.2 c (List.mem_cons_self _ _)
    have hhead : ∃ t, joinSpace ((c :: w') :: vs') = c :: t := by
      cases vs' <;> exact ⟨_, rfl⟩
    rcases hhead with ⟨t, ht⟩
    unfold trim
    rw [ht, List.dropWhile_cons_of_neg (by simp [hc]), ← ht]
    rcases joinSpace_reverse_head ((c :: w') :: vs') h (by simp) with ⟨d, u, hdu, hd⟩
    rw [hdu, List.dropWhile_cons_of_neg (by simp [hd]), ← hdu]
    simp

theorem rules_facts :
    ∀ p ∈ CAPITALIZATION_RULES, jsNorm p.2 = p.1 ∧ formatNote p.2 = p.2 := by decide

theorem lookupRule_mem : ∀ (ps : List (List Nat × List Nat)) (key v : List Nat),
    lookupRule ps key = some v → (key, v) ∈ ps := by
  intro ps
  induction ps with
  | nil => intro key v h; simp [lookupRule] at h
  | cons p rest ih =>
    intro key v h
    rcases p with ⟨k, w⟩
    rw [show lookupRule ((k, w) :: rest) key =
      if key = k then some w else lookupRule rest key from rfl] at h
    by_cases hk : key = k
    · rw [if_pos hk] at h
      cases h
      subst hk
      exact List.mem_cons_self _ _
    · rw [if_neg hk] at h
      exact List.mem_cons_of_mem _ (ih key v h)

theorem capitalizeWord_ne_nil (w : List Nat) (h : w ≠ []) : capitalizeWord w ≠ [] := by
  rcases List.exists_cons_of_ne_nil h with ⟨c, w', rfl⟩
  simp [capitalizeWord]

theorem formatNote_fix (n : List Nat) (h : jsNorm n = collapseNorm n) :
    jsNorm (formatNote n) = jsNorm n ∧ formatNote (formatNote n) = formatNote n := by
  by_cases hn : n = []
  · subst hn; exact ⟨rfl, rfl⟩
  · have hwords : ∀ w ∈ splitWs (toLowerCase n), w ≠ [] ∧ ∀ c ∈ w, isWsC c = false :=
      fun w hw => splitWsGo_words (toLowerCase n) [] (by simp) w hw
    have hchars : ∀ w ∈ splitWs (toLowerCase n), ∀ c ∈ w, lowerC c = c := by
      intro w hw c hc
      rcases splitWsGo_chars (toLowerCase n) [] w c hw hc with h1 | h1
      · exact mem_toLowerCase_fixed n c h1
      · simp at h1
    have hk : jsNorm n = joinSpace (splitWs (toLowerCase n)) := h
    have hsplitk : splitWs (jsNorm n) = splitWs (toLowerCase n) := by
      rw [hk]; exact splitWs_joinSpace _ hwords
    have hMdef : joinSpace ((splitWs (jsNorm n)).map capitalizeWord) =
        joinSpace ((splitWs (toLowerCase n)).map capitalizeWord) := by rw [hsplitk]
    have hMkey : jsNorm (joinSpace ((splitWs (jsNorm n)).map capitalizeWord)) = jsNorm n := by
      rw [hMdef]
      show trim (toLowerCase (joinSpace ((splitWs (toLowerCase n)).map capitalizeWord))) = jsNorm n
      rw [toLowerCase_joinSpace, List.map_map]
      have e1 : (splitWs (toLowerCase n)).map (toLowerCase ∘ capitalizeWord) =
          splitWs (toLowerCase n) := by
        rw [List.map_congr_left (fun w hw => by
          show toLowerCase (capitalizeWord w) = id w
          rw [toLowerCase_capitalizeWord, toLowerCase_fixed w (hchars w hw)]
          rfl), List.map_id]
      rw [e1, trim_joinSpace _ hwords, hk]
    cases hl : lookupRule CAPITALIZATION_RULES (jsNorm n) with
    | some v =>
      have hfv : formatNote n = v := by simp only [formatNote, if_neg hn, hl]
      have hf := rules_facts (jsNorm n, v) (lookupRule_mem _ _ _ hl)
      rw [hfv]
      exact ⟨hf.1, hf.2⟩
    | none =>
      have hfM : formatNote n = joinSpace ((splitWs (jsNorm n)).map capitalizeWord) := by
        simp only [formatNote, if_neg hn, hl]
      rw [hfM]
      refine ⟨hMkey, ?_⟩
      by_cases hvs0 : splitWs (toLowerCase n) = []
      · have hM0 : joinSpace ((splitWs (jsNorm n)).map capitalizeWord) = [] := by
          rw [hsplitk, hvs0]; rfl
        rw [hM0]; rfl
      · rcases List.exists_cons_of_ne_nil hvs0 with ⟨w, vs', hvv⟩
        have hMne : joinSpace ((splitWs (jsNorm n)).map capitalizeWord) ≠ [] := by
          rw [hsplitk, hvv, List.map_cons]
          exact joinSpace_ne_nil _ _
            (capitalizeWord_ne_nil w (hwords w (by rw [hvv]; exact List.mem_cons_self _ _)).1)
        simp only [formatNote, if_neg hMne, hMkey, hl]

theorem formatNotesGo_eq_map : ∀ (l seen : List (List Nat)),
    formatNotesGo seen l = (dedupRawGo seen l).map formatNote := by
  intro l
  induction l with
  | nil => intro seen; rfl
  | cons n rest ih =>
    intro seen
    by_cases hc : jsNorm n ≠ [] ∧ jsNorm n ∉ seen
    · simp only [formatNotesGo, dedupRawGo, if_pos hc, List.map_cons, ih]
    · simp only [formatNotesGo, dedupRawGo, if_neg hc, ih]

theorem dedupRawGo_spec : ∀ (l seen : List (List Nat)),
    ((dedupRawGo seen l).map jsNorm).Nodup ∧
    ∀ k ∈ (dedupRawGo seen l).map jsNorm, k ∉ seen ∧ k ≠ [] := by
  intro l
  induction l with
  | nil =>
    intro seen
    refine ⟨List.nodup_nil, ?_⟩
    intro k hk
    simp [dedupRawGo] at hk
  | cons n rest ih =>
    intro seen
    by_cases hc : jsNorm n ≠ [] ∧ jsNorm n ∉ seen
    · rcases ih (jsNorm n :: seen) with ⟨nd, hall⟩
      rw [show dedupRawGo seen (n :: rest) =
        n :: dedupRawGo (jsNorm n :: seen) rest from by
          simp only [dedupRawGo, if_pos hc]]
      rw [List.map_cons]
      constructor
      · refine List.nodup_cons.mpr ⟨?_, nd⟩
        intro hmem
        exact (hall _ hmem).1 (List.mem_cons_self _ _)
      · intro k hk
        rcases List.mem_cons.mp hk with rfl | hk2
        · exact ⟨hc.2, hc.1⟩
        · rcases hall k hk2 with ⟨hns, hne⟩
          exact ⟨fun hs => hns (List.mem_cons_of_mem _ hs), hne⟩
    · rw [show dedupRawGo seen (n :: rest) = dedupRawGo seen rest from by
        simp only [dedupRawGo, if_neg hc]]
      exact ih seen

theorem dedupRawGo_subset : ∀ (l seen : List (List Nat)) (n : List Nat),
    n ∈ dedupRawGo seen l → n ∈ l := by
  intro l
  induction l with
  | nil => intro seen n h; simp [dedupRawGo] at h
  | cons m rest ih =>
    intro seen n h
    by_cases hc : jsNorm m ≠ [] ∧ jsNorm m ∉ seen
    · rw [show dedupRawGo seen (m :: rest) =
        m :: dedupRawGo (jsNorm m :: seen) rest from by
          simp only [dedupRawGo, if_pos hc]] at h
      rcases List.mem_cons.mp h with rfl | h2
      · exact List.mem_cons_self _ _
      · exact List.mem_cons_of_mem _ (ih _ n h2)
    · rw [show dedupRawGo seen (m :: rest) = dedupRawGo seen rest from by
        simp only [dedupRawGo, if_neg hc]] at h
      exact List.mem_cons_of_mem _ (ih _ n h)

theorem formatNotesGo_id : ∀ (l seen : List (List Nat)),
    (∀ e ∈ l, formatNote e = e) →
    (∀ e ∈ l, jsNorm e ≠ [] ∧ jsNorm e ∉ seen) →
    (l.map jsNorm).Nodup →
    formatNotesGo seen l = l := by
  intro l
  induction l with
  | nil => intro seen _ _ _; rfl
  | cons e rest ih =>
    intro seen hfix hkey hnd
    have he := hkey e (List.mem_cons_self _ _)
    rw [show formatNotesGo seen (e :: rest) =
      formatNote e :: formatNotesGo (jsNorm e :: seen) rest from by
        simp only [formatNotesGo, if_pos he]]
    rw [hfix e (List.mem_cons_self _ _)]
    congr 1
    apply ih
    · exact fun u hu => hfix u (List.mem_cons_of_mem _ hu)
    · intro u hu
      rcases hkey u (List.mem_cons_of_mem _ hu) with ⟨h1, h2⟩
      refine ⟨h1, ?_⟩
      intro hmem
      rcases List.mem_cons.mp hmem with heq | hmem2
      · rw [List.map_cons] at hnd
        exact (List.nodup_cons.mp hnd).1 (heq ▸ List.mem_map_of_mem jsNorm hu)
      · exact h2 hmem2
    · rw [List.map_cons] at hnd
      exact (List.nodup_cons.mp hnd).2

theorem parseNoteField_eq_formatNotes (x : NoteField) :
    parseNoteField x = formatNotes (rawNotes x) := by
  cases x with
  | nullv => rfl
  | arr notes => rfl
  | str s =>
    by_cases hs : s = []
    · simp [parseNoteField, rawNotes, hs, formatNotes, formatNotesGo]
    · simp [parseNoteField, rawNotes, hs]

theorem formatNotes_stable (R : List (List Nat))
    (h : ∀ n ∈ R, jsNorm n = collapseNorm n) :
    formatNotes (formatNotes R) = formatNotes R := by
  have hA : formatNotes R = (dedupRaw R).map formatNote := formatNotesGo_eq_map R []
  have hB := dedupRawGo_spec R []
  have hsub : ∀ n ∈ dedupRaw R, n ∈ R := fun n hn => dedupRawGo_subset R [] n hn
  have hfix : ∀ n ∈ dedupRaw R,
      jsNorm (formatNote n) = jsNorm n ∧ formatNote (formatNote n) = formatNote n :=
    fun n hn => formatNote_fix n (h n (hsub n hn))
  have hmap : (formatNotes R).map jsNorm = (dedupRaw R).map jsNorm := by
    rw [hA, List.map_map]
    exact List.map_congr_left (fun n hn => (hfix n hn).1)
  show formatNotesGo [] (formatNotes R) = formatNotes R
  apply formatNotesGo_id
  · intro e he
    rw [hA] at he
    rcases List.mem_map.mp he with ⟨n, hn, rfl⟩
    exact (hfix n hn).2
  · intro e he
    rw [hA] at he
    rcases List.mem_map.mp he with ⟨n, hn, rfl⟩
    refine ⟨?_, by simp⟩
    rw [(hfix n hn).1]
    exact (hB.2 (jsNorm n) (List.mem_map_of_mem jsNorm hn)).2
  · rw [hmap]
    exact hB.1

theorem mathMin_eq_min (a b : ℚ) : mathMin a b = min a b := by
  unfold mathMin
  split_ifs with h
  · exact (min_eq_left h).symm
  · exact (min_eq_right (le_of_not_le h)).symm

theorem mathMax_eq_max (a b : ℚ) : mathMax a b = max a b := by
  unfold mathMax
  split_ifs with h
  · exact (max_eq_right h).symm
  · exact (max_eq_left (le_of_not_le h)).symm

theorem mathMin_unit (a b : ℚ) (ha0 : 0 ≤ a) (ha1 : a ≤ 1) (hb : 0 ≤ b) :
    0 ≤ mathMin a b ∧ mathMin a b ≤ 1 := by
  unfold mathMin
  split_ifs with h
  · exact ⟨ha0, ha1⟩
  · exact ⟨hb, (le_of_not_le h).trans ha1⟩

theorem mathMax_unit (a b : ℚ) (h0 : 0 ≤ a) (h1 : a ≤ 1) (hb1 : b ≤ 1) :
    0 ≤ mathMax a b ∧ mathMax a b ≤ 1 := by
  unfold mathMax
  split_ifs with h
  · exact ⟨h0.trans h, hb1⟩
  · exact ⟨h0, h1⟩

theorem commonNotes_length (p1 p2 : Perfume) :
    (commonNotes p1 p2).length =
      ((extractAllNotes p1).map normalizeNote).countP
        (fun n => n ∈ (extractAllNotes p2).map normalizeNote) := by
  rw [List.countP_map]
  unfold commonNotes
  rw [← List.countP_eq_length_filter]
  apply List.countP_congr
  intro a _
  constructor
  · intro h
    rcases List.any_eq_true.mp h with ⟨r, hr, hbe⟩
    exact decide_eq_true (List.mem_map.mpr ⟨r, hr, (beq_iff_eq.mp hbe).symm⟩)
  · intro h
    have hm : normalizeNote a ∈ (extractAllNotes p2).map normalizeNote :=
      of_decide_eq_true h
    rcases List.mem_map.mp hm with ⟨r, hr, he⟩
    exact List.any_eq_true.mpr ⟨r, hr, beq_iff_eq.mpr he.symm⟩

theorem legacy_similar_only (p1 p2 : Perfume) (b1 b2 : List Nat) (i : ℕ)
    (h1 : p1.brand = some b1) (h2 : p2.brand = some b2)
    (hbr : ¬ toLowerCase b1 = toLowerCase b2)
    (hpos : 0 < (commonNotes p1 p2).length)
    (hcomp : areComplementaryProfiles p1 p2 = false) :
    confOf (generateRecommendationReason p1 p2 i) =
      some (mathMin (19/20) (3/5 + ((commonNotes p1 p2).length : ℚ) * (1/10))) := by
  have e0 : generateRecommendationReason p1 p2 i =
      .ok (bestReason (legacyReasons p1 p2 b1 b2 i)) := by
    unfold generateRecommendationReason
    rw [h1, h2]
  rw [e0]
  show (bestReason (legacyReasons p1 p2 b1 b2 i)).confidence = _
  simp [legacyReasons, hbr, hpos, hcomp, bestReason]

/-! ## The claims -/

/-- Claim C1: in the signal-based explainer the rules are evaluated in a
fixed order and the first matching rule wins: whenever the payload carries
sharedNotes greater than 6, the result has type similar_notes with
confidence min(0.95, similarityScore / 3), whatever the olfactiveProfile
holds. -/
theorem signal_rule_precedence (data : RecData) (index : ℕ) (n : ℚ)
    (hs : data.sharedNotes = some n) (h6 : 6 < n) :
    (generateRecommendationReasonFromData data index).rtype = .similar_notes ∧
    (generateRecommendationReasonFromData data index).confidence =
      data.similarityScore.map (fun s => min (19/20) (s / 3)) := by
  have hg : jsGt data.sharedNotes 6 = true := by
    rw [hs]
    exact decide_eq_true h6
  constructor
  · simp only [generateRecommendationReasonFromData, hg, if_true]
  · simp only [generateRecommendationReasonFromData, hg, if_true]
    cases hsim : data.similarityScore with
    | none => rfl
    | some s => simp [jsMin, jsDiv, mathMin_eq_min]

/-- Witness for C1: the concrete payload of the specification, with
sharedNotes 8, similarityScore 1.0 and profile WOODY 10, yields the
similar_notes reason with confidence min(0.95, 1/3). -/
theorem signal_rule_precedence_witness :
    (generateRecommendationReasonFromData dataC1 0).rtype = .similar_notes ∧
    (generateRecommendationReasonFromData dataC1 0).confidence =
      some (min (19/20) ((1:ℚ)/3)) := by
  have h := signal_rule_precedence dataC1 0 8 rfl (by norm_num)
  exact ⟨h.1, by rw [h.2]; rfl⟩

/-- Counterexample to C2: on the input "a  b, a b" the two raw notes carry
distinct lower-cased trimmed keys, so both are kept, yet both format to
"A B"; the output has two elements with equal collapse-normalized forms. -/
theorem dedup_not_collapse_insensitive :
    parseNoteField noteInputC2 = [cp "A B", cp "A B"] ∧
    ¬ ((parseNoteField noteInputC2).map collapseNorm).Nodup :=
  ⟨by decide, by decide⟩

/-- Claim C2 as amended: deduplication is case-insensitive and
trim-insensitive but not whitespace-run-insensitive; the output is the
image under formatNote of the raw notes kept by first occurrence of each
lower-cased trimmed key, and those keys are pairwise distinct.  Two notes
differing only in internal whitespace runs are not merged. -/
theorem dedup_by_raw_key (x : NoteField) :
    parseNoteField x = (dedupRaw (rawNotes x)).map formatNote ∧
    ((dedupRaw (rawNotes x)).map jsNorm).Nodup :=
  ⟨by rw [parseNoteField_eq_formatNotes x]; exact formatNotesGo_eq_map _ [],
   (dedupRawGo_spec _ []).1⟩

/-- Counterexample to C3: with sharedNotes = 8 and similarityScore absent,
the first rule fires and its confidence is Math.min(0.95, undefined / 3),
which is NaN (modelled `none`), not a real number in the unit interval. -/
theorem confidence_nan_on_absent_score :
    (generateRecommendationReasonFromData dataNoScore 0).confidence = none := rfl

/-- Claim C3 as amended: the confidence of the signal-based explainer is a
real in the closed unit interval whenever similarityScore is present and
non-negative, or absent while neither score-based rule (sharedNotes above 6
or dominant family above 4) fires; when it is absent and such a rule fires
the confidence is NaN. -/
theorem confidence_unit_interval (data : RecData) (index : ℕ)
    (h : match data.similarityScore with
         | some s => 0 ≤ s
         | none => jsGt data.sharedNotes 6 = false ∧
             (dominantFamily data.olfactiveProfile).2 ≤ 4) :
    ∃ q, (generateRecommendationReasonFromData data index).confidence = some q ∧
      0 ≤ q ∧ q ≤ 1 := by
  have hidx : (0:ℚ) ≤ (index : ℚ) * (1/10) := by positivity
  cases hsim : data.similarityScore with
  | some s =>
    rw [hsim] at h
    have hs : (0:ℚ) ≤ s := h
    have hs3 : (0:ℚ) ≤ s / 3 := by positivity
    unfold generateRecommendationReasonFromData
    by_cases h1 : jsGt data.sharedNotes 6 = true
    · rw [if_pos h1]
      refine ⟨mathMin (19/20) (s/3), ?_, ?_⟩
      · show jsMin (19/20) (jsDiv data.similarityScore 3) = _
        rw [hsim]
        rfl
      · exact mathMin_unit _ _ (by norm_num) (by norm_num) hs3
    · rw [if_neg h1]
      by_cases h2 : (4:ℚ) < (dominantFamily data.olfactiveProfile).2
      · rw [if_pos h2]
        refine ⟨mathMin (9/10) (s/3), ?_, ?_⟩
        · show jsMin (9/10) (jsDiv data.similarityScore 3) = _
          rw [hsim]
          rfl
        · exact mathMin_unit _ _ (by norm_num) (by norm_num) hs3
      · rw [if_neg h2]
        by_cases h3 : jsGt data.similarityScore (5/2) = true
        · rw [if_pos h3]
          refine ⟨mathMin (17/20) (s/3), ?_, ?_⟩
          · show jsMin (17/20) (jsDiv data.similarityScore 3) = _
            rw [hsim]
            rfl
          · exact mathMin_unit _ _ (by norm_num) (by norm_num) hs3
        · rw [if_neg h3]
          refine ⟨mathMax (3/5) (4/5 - (index : ℚ) * (1/10)), rfl, ?_⟩
          exact mathMax_unit _ _ (by norm_num) (by norm_num) (by linarith)
  | none =>
    rw [hsim] at h
    obtain ⟨hg, hdom⟩ := h
    unfold generateRecommendationReasonFromData
    rw [if_neg (by rw [hg]; exact Bool.false_ne_true)]
    rw [if_neg (not_lt.mpr hdom)]
    rw [if_neg (by rw [hsim]; exact Bool.false_ne_true)]
    refine ⟨mathMax (3/5) (4/5 - (index : ℚ) * (1/10)), rfl, ?_⟩
    exact mathMax_unit _ _ (by norm_num) (by norm_num) (by linarith)

/-- Witness for the amended C3 at the concrete payload of C1. -/
theorem confidence_unit_interval_witness :
    ∃ q, (generateRecommendationReasonFromData dataC1 0).confidence = some q ∧
      0 ≤ q ∧ q ≤ 1 :=
  confidence_unit_interval dataC1 0 (show (0:ℚ) ≤ 1 by norm_num)

/-- Claim C4: the legacy pairwise explainer returns the matched reason of
highest confidence: when the brands agree case-insensitively and exactly
two source notes match, the same-brand reason (confidence 0.85) beats the
similar-notes reason (confidence 0.8). -/
theorem legacy_ranks_by_confidence (p1 p2 : Perfume) (i : ℕ) (b1 b2 : List Nat)
    (h1 : p1.brand = some b1) (h2 : p2.brand = some b2)
    (hb : toLowerCase b1 = toLowerCase b2)
    (hc : (commonNotes p1 p2).length = 2) :
    ∃ r, generateRecommendationReason p1 p2 i = .ok r ∧
      r.rtype = .same_brand ∧ r.confidence = some (17/20) := by
  have e0 : generateRecommendationReason p1 p2 i =
      .ok (bestReason (legacyReasons p1 p2 b1 b2 i)) := by
    unfold generateRecommendationReason
    rw [h1, h2]
  have hpos : 0 < (commonNotes p1 p2).length := by rw [hc]; norm_num
  refine ⟨bestReason (legacyReasons p1 p2 b1 b2 i), e0, ?_, ?_⟩
  · by_cases hcp : areComplementaryProfiles p1 p2
    · simp [legacyReasons, hb, hpos, hcp, bestReason]
      rw [hc]
      norm_num [jsConfGt, mathMin]
    · simp [legacyReasons, hb, hpos, hcp, bestReason]
      rw [hc]
      norm_num [jsConfGt, mathMin]
  · by_cases hcp : areComplementaryProfiles p1 p2
    · simp [legacyReasons, hb, hpos, hcp, bestReason]
      rw [hc]
      norm_num [jsConfGt, mathMin]
    · simp [legacyReasons, hb, hpos, hcp, bestReason]
      rw [hc]
      norm_num [jsConfGt, mathMin]

/-- Witness for C4: two same-brand perfumes sharing exactly the notes rose
and jasmine. -/
theorem legacy_ranks_by_confidence_witness :
    ∃ r, generateRecommendationReason perfSameBrandA perfSameBrandB 0 = .ok r ∧
      r.rtype = .same_brand ∧ r.confidence = some (17/20) :=
  legacy_ranks_by_confidence perfSameBrandA perfSameBrandB 0 (cp "Dior") (cp "dior")
    rfl rfl (by decide) (by decide)

/-- Counterexample to C5: the input with notes "a  b" and "a b" is not a
fixpoint of the normalizer: the first pass keeps both (distinct keys) and
formats both to "A B", and the second pass merges them. -/
theorem normalizer_not_idempotent :
    parseNoteField (.arr (parseNoteField noteInputC5)) ≠ parseNoteField noteInputC5 := by
  decide

/-- Claim C5 as amended: the note normalizer is idempotent on every input
whose raw notes are internally single-spaced, that is, whose lower-cased
trimmed text equals its whitespace-collapsed form; it is not idempotent in
general (notes differing only in internal whitespace runs defeat it). -/
theorem normalizer_idempotent_single_spaced (x : NoteField)
    (h : ∀ n ∈ rawNotes x, jsNorm n = collapseNorm n) :
    parseNoteField (.arr (parseNoteField x)) = parseNoteField x := by
  rw [parseNoteField_eq_formatNotes x]
  show formatNotes (formatNotes (rawNotes x)) = formatNotes (rawNotes x)
  exact formatNotes_stable _ h

/-- Witness for the amended C5 on a two-note array input. -/
theorem normalizer_idempotent_single_spaced_witness :
    parseNoteField (.arr (parseNoteField noteInputC5w)) = parseNoteField noteInputC5w :=
  normalizer_idempotent_single_spaced noteInputC5w (by decide)

/-- Counterexample to C6: the legacy explainer dereferences
brand.toLowerCase() before anything else, so a record with no brand raises
a TypeError instead of degrading gracefully. -/
theorem legacy_raises_without_brand :
    generateRecommendationReason perfNoBrand perfNoBrand 0 = .error .typeError := rfl

/-- Claim C6 as amended: the legacy pairwise explainer returns a
RecommendationReason without raising for every pair of records whose brand
fields are present, whatever the note fields hold; an absent brand on
either side raises a TypeError. -/
theorem legacy_total_with_brands (p1 p2 : Perfume) (i : ℕ) (b1 b2 : List Nat)
    (h1 : p1.brand = some b1) (h2 : p2.brand = some b2) :
    ∃ r, generateRecommendationReason p1 p2 i = .ok r := by
  refine ⟨bestReason (legacyReasons p1 p2 b1 b2 i), ?_⟩
  unfold generateRecommendationReason
  rw [h1, h2]

/-- Witness for the amended C6. -/
theorem legacy_total_with_brands_witness :
    ∃ r, generateRecommendationReason perfSameBrandA perfSameBrandB 0 = .ok r :=
  legacy_total_with_brands perfSameBrandA perfSameBrandB 0 (cp "Dior") (cp "dior") rfl rfl

/-- Counterexample to C7: with source notes "rose, rose" and recommended
note "rose" the set intersection of the normalized vocabularies has
cardinality 1, so the claimed formula gives min(0.95, 0.7) = 0.7, yet the
code counts the two source occurrences and returns confidence 0.8. -/
theorem legacy_shared_count_multiplicity :
    confOf (generateRecommendationReason perfDoubleRose perfSingleRose 0) = some (4/5) ∧
    specNoteIntersectionCard perfDoubleRose perfSingleRose = 1 ∧
    (4:ℚ)/5 ≠ min (19/20) (3/5 + (1:ℚ) * (1/10)) := by
  have hlen : (commonNotes perfDoubleRose perfSingleRose).length = 2 := by decide
  refine ⟨?_, by decide, by rw [min_def]; norm_num⟩
  rw [legacy_similar_only perfDoubleRose perfSingleRose (cp "A") (cp "B") 0 rfl rfl
    (by decide) (by rw [hlen]; norm_num) (by decide), hlen]
  unfold mathMin
  rw [if_neg (by push_cast; norm_num)]
  push_cast
  norm_num

/-- Claim C7 as amended: the similar-notes candidate of the legacy explainer
normalizes and intersects the two note vocabularies, and its confidence is
min(0.95, 0.6 + 0.1 k) where k counts the source notes, with multiplicity,
whose normalized form occurs among the normalized recommended notes (not
the cardinality of the set intersection). -/
theorem legacy_similar_notes_confidence (p1 p2 : Perfume) (b1 b2 : List Nat) (i : ℕ)
    (hk : 0 < ((extractAllNotes p1).map normalizeNote).countP
        (fun n => n ∈ (extractAllNotes p2).map normalizeNote)) :
    ∃ r ∈ legacyReasons p1 p2 b1 b2 i, r.rtype = .similar_notes ∧
      r.confidence = some (min (19/20) (3/5 +
        ((((extractAllNotes p1).map normalizeNote).countP
          (fun n => n ∈ (extractAllNotes p2).map normalizeNote) : ℚ)) * (1/10))) ∧
      r.matchingElements = commonNotes p1 p2 := by
  have hlen := commonNotes_length p1 p2
  have hpos : 0 < (commonNotes p1 p2).length := by rw [hlen]; exact hk
  refine ⟨{ rtype := .similar_notes
            confidence := some (mathMin (19/20)
              (3/5 + ((commonNotes p1 p2).length : ℚ) * (1/10)))
            details := cp "Shares " ++ natStr (commonNotes p1 p2).length ++
              cp " key fragrance note" ++
              (if 1 < (commonNotes p1 p2).length then cp "s" else []) ++ cp ": " ++
              List.intercalate (cp ", ") ((commonNotes p1 p2).take 3) ++ cp "."
            matchingElements := commonNotes p1 p2 }, ?_, rfl, ?_, rfl⟩
  · by_cases hbr : toLowerCase b1 = toLowerCase b2 <;>
      by_cases hcp : areComplementaryProfiles p1 p2 <;>
      simp [legacyReasons, hbr, hpos, hcp]
  · rw [mathMin_eq_min, hlen]

/-- Witness for the amended C7 on the double-rose pair, whose count with
multiplicity is 2. -/
theorem legacy_similar_notes_confidence_witness :
    ∃ r ∈ legacyReasons perfDoubleRose perfSingleRose (cp "A") (cp "B") 0,
      r.rtype = .similar_notes ∧
      r.confidence = some (min (19/20) (3/5 +
        ((((extractAllNotes perfDoubleRose).map normalizeNote).countP
          (fun n => n ∈ (extractAllNotes perfSingleRose).map normalizeNote) : ℚ)) * (1/10))) ∧
      r.matchingElements = commonNotes perfDoubleRose perfSingleRose :=
  legacy_similar_notes_confidence perfDoubleRose perfSingleRose (cp "A") (cp "B") 0
    (by decide)

/-- Claim C8: a single comma-joined string is split only on commas, each
segment trimmed and empty segments discarded, so a compound note survives:
the concrete example of the specification holds, and a comma-free string is
never split at all. -/
theorem parseNoteField_comma_only :
    parseNoteField (.str (cp "Pink Pepper, Bergamot")) = [cp "Pink Pepper", cp "Bergamot"] ∧
    parseNoteField (.str (cp "Pink Pepper, Bergamot")) ≠ [cp "Pink", cp "Pepper", cp "Bergamot"] ∧
    ∀ s : List Nat, 44 ∉ s → splitComma s = [s] := by
  refine ⟨by decide, by decide, ?_⟩
  intro s hs
  induction s with
  | nil => rfl
  | cons c rest ih =>
    have hc : ¬ c = 44 := by
      intro hh
      subst hh
      exact hs (List.mem_cons_self _ _)
    have hr : 44 ∉ rest := fun hh => hs (List.mem_cons_of_mem _ hh)
    rw [show splitComma (c :: rest) = if c = 44 then [] :: splitComma rest else
      match splitComma rest with
      | [] => [[c]]
      | seg :: segs => (c :: seg) :: segs from rfl]
    rw [if_neg hc, ih hr]

/-- Witness for C8: a comma-free multi-word string stays one segment. -/
theorem parseNoteField_comma_only_witness :
    (44 ∉ cp "Rose petals") ∧ splitComma (cp "Rose petals") = [cp "Rose petals"] :=
  ⟨by decide, parseNoteField_comma_only.2.2 (cp "Rose petals") (by decide)⟩

/-- Claim C9: the note parser maps every empty or absent input, null, the
empty string and the empty array, to the empty list; being a total
function of the model, it raises nothing. -/
theorem parseNoteField_empty_safe :
    parseNoteField .nullv = [] ∧ parseNoteField (.str (cp "")) = [] ∧
    parseNoteField (.arr []) = [] :=
  ⟨rfl, rfl, rfl⟩

/-- Claim C10: the signal-based explainer never reads the perfume record of
the payload: two payloads agreeing on similarityScore, sharedNotes,
olfactiveProfile and index produce identical reasons, whatever perfume
records they carry. -/
theorem signal_ignores_perfume (d1 d2 : RecData) (i : ℕ)
    (h1 : d1.similarityScore = d2.similarityScore)
    (h2 : d1.sharedNotes = d2.sharedNotes)
    (h3 : d1.olfactiveProfile = d2.olfactiveProfile) :
    generateRecommendationReasonFromData d1 i = generateRecommendationReasonFromData d2 i := by
  cases d1 with
  | mk p1 s1 n1 o1 =>
    cases d2 with
    | mk p2 s2 n2 o2 =>
      dsimp only at h1 h2 h3
      subst h1
      subst h2
      subst h3
      rfl

/-- Witness for C10: two payloads with the same signals, one carrying a
perfume record and one carrying none, give the same reason. -/
theorem signal_ignores_perfume_witness :
    generateRecommendationReasonFromData dataC10a 0 =
      generateRecommendationReasonFromData dataC10b 0 :=
  signal_ignores_perfume dataC10a dataC10b 0 rfl rfl rfl

end PerfumeCore
